import Mathlib

/-!
Verification development for the supermdx language-server core.

The definitions below are a shallow embedding of the Rust sources:
  src/nodes.rs           (span containment, the partial-reference predicate)
  src/ast.rs             (ancestor chain, deepest match)
  src/nodes/partials.rs  (ordered-directory resolution of a partial reference)
  src/config.rs          (ConfigValues::update)
  src/main.rs            (Backend::goto_definition, Backend::on_change)
External collaborators (the filesystem, the TOML reader, the markdown
parser) are passed in as explicit oracles; machine integers of the source
are modelled as Nat (the source only adds 1 to u32 coordinates and compares
usize values, so no overflow is reachable in the behaviours claimed).
-/

namespace SuperMdx

/-- A source span as produced by the grammar: 1-based inclusive start and
end coordinates (mdast Position flattened to its line/column fields). -/
structure Span where
  startLine : Nat
  startColumn : Nat
  endLine : Nat
  endColumn : Nat
deriving DecidableEq

/-- A zero-based LSP cursor position (lsp_types::Position). -/
structure Position where
  line : Nat
  character : Nat
deriving DecidableEq

/-- A filesystem path: an absolute-or-relative flag plus a component list.
Models std::path::PathBuf as far as the source uses it (join and
existence checks); no normalization, mirroring PathBuf. -/
structure Path where
  absolute : Bool
  components : List String
deriving DecidableEq

/-- PathBuf::join - pushing an absolute path replaces the whole base. -/
def Path.join (a b : Path) : Path :=
  if b.absolute then b else Path.mk a.absolute (a.components ++ b.components)

/-- A single relative path component built from a string (how a string
such as an src attribute value or the config file name enters a join). -/
def relPath (s : String) : Path :=
  Path.mk false [s]

/-- mdast AttributeValue: an expression or a plain string literal. -/
inductive AttributeValue where
  | expression (value : String)
  | literal (value : String)
deriving DecidableEq

/-- mdast AttributeContent: an expression attribute, or a named property
with an optional value. -/
inductive AttributeContent where
  | expression (value : String)
  | property (name : String) (value : Option AttributeValue)
deriving DecidableEq

/-- The payload of an MDX JSX flow element that the resolver consumes:
its optional tag name and its attribute list. -/
structure MdxJsxFlowElement where
  name : Option String
  attributes : List AttributeContent
deriving DecidableEq

/-- The kind tag of a syntax-tree node.  The MDX JSX flow element variant
carries the element payload used by the partial machinery; the other
mdast kinds are behaviourally identical for the core and are kept as
bare tags. -/
inductive NodeKind where
  | root
  | heading
  | paragraph
  | list
  | listItem
  | text
  | mdxJsxFlowElement (name : Option String) (attributes : List AttributeContent)
  | other
deriving DecidableEq

/-- A syntax-tree node: kind, optional span (absent for synthetic nodes),
and optional ordered children (none for leaf kinds, mirroring that
mdast Node::children returns an Option). -/
inductive Node where
  | mk (kind : NodeKind) (position : Option Span) (children : Option (List Node))

/-- Kind accessor. -/
def Node.kind : Node → NodeKind
  | Node.mk k _ _ => k

/-- Span accessor (mdast Node::position). -/
def Node.position : Node → Option Span
  | Node.mk _ pos _ => pos

/-- Child accessor (mdast Node::children). -/
def Node.children : Node → Option (List Node)
  | Node.mk _ _ ch => ch

/-- src/nodes.rs NodeExt::contains_position: true iff the node has a span
and the 1-based-converted cursor lies inside it on both axes, inclusive. -/
def contains_position (n : Node) (p : Position) : Bool :=
  ((Node.position n).map (fun pos =>
    decide (pos.startLine ≤ p.line + 1) && decide (pos.endLine ≥ p.line + 1) &&
    decide (pos.startColumn ≤ p.character + 1) && decide (pos.endColumn ≥ p.character + 1))).getD
    false

/-- src/nodes.rs: the reserved marker tag for a partial reference. -/
def PARTIAL : String := "$Partial"

/-- src/nodes.rs NodeExt::is_partial: an MDX JSX flow element whose tag
name equals the reserved marker. -/
def is_partial (n : Node) : Bool :=
  match Node.kind n with
  | NodeKind.mdxJsxFlowElement name _ =>
      (name.map (fun s => decide (s = PARTIAL))).getD false
  | _ => false

/-- One step of the chain walk in src/ast.rs get_ancestor_chain:
the first child (in child order) of a node that contains the position,
i.e. node.children().and_then(find first containing). -/
def stepChild (p : Position) (n : Node) : Option Node :=
  (Node.children n).bind (fun cs => cs.find? (fun c => contains_position c p))

theorem stepChild_sizeOf_lt {p : Position} {n c : Node}
    (h : stepChild p n = some c) : sizeOf c < sizeOf n := by
  unfold stepChild at h
  cases n with
  | mk k pos ch =>
    cases ch with
    | none => simp [Node.children] at h
    | some cs =>
      simp only [Node.children, Option.bind] at h
      have hmem := List.mem_of_find?_eq_some h
      have hlt := List.sizeOf_lt_of_mem hmem
      simp only [Node.mk.sizeOf_spec, Option.some.sizeOf_spec]
      omega

/-- The loop of src/ast.rs get_ancestor_chain, entered once the root is
known to contain the position: push the current node, then continue from
the first child containing the position, stopping when there is none. -/
def nodeChain (p : Position) (n : Node) : List Node :=
  n :: (match h : stepChild p n with
        | some c => nodeChain p c
        | none => [])
termination_by sizeOf n
decreasing_by exact stepChild_sizeOf_lt h

/-- src/ast.rs get_ancestor_chain: empty when the root does not contain
the position, otherwise the chain walk from the root. -/
def get_ancestor_chain (ast : Node) (p : Position) : List Node :=
  if contains_position ast p then nodeChain p ast else []

/-- src/ast.rs find_deepest_match: iterate the chain in reverse and
return the first element satisfying the predicate. -/
def find_deepest_match (chain : List Node) (test : Node → Bool) : Option Node :=
  chain.reverse.find? test

theorem nodeChain_unfold (p : Position) (n : Node) :
    nodeChain p n = n :: (match stepChild p n with
      | some c => nodeChain p c
      | none => []) := by
  rw [nodeChain]
  cases hstep : stepChild p n <;> simp [hstep]

/-- The attribute name the resolver looks for. -/
def SRC : String := "src"

/-- The per-attribute closure of the find_map in
src/nodes/partials.rs find_matching_partial: a property named src whose
value is a plain string literal yields that string, anything else none. -/
def srcOfAttr (attr : AttributeContent) : Option String :=
  match attr with
  | AttributeContent.property name value =>
      if name = SRC then
        value.bind (fun v =>
          match v with
          | AttributeValue.literal s => some s
          | AttributeValue.expression _ => none)
      else none
  | AttributeContent.expression _ => none

/-- The src-attribute extraction of src/nodes/partials.rs: the first
attribute for which the closure yields a value (iter().find_map). -/
def getSrc (attrs : List AttributeContent) : Option String :=
  attrs.findSome? srcOfAttr

/-- The shared, lock-guarded configuration record of src/config.rs. -/
structure ConfigValues where
  partials_dirs : List Path
  workspace_root : Option Path
deriving DecidableEq

/-- The directory loop of src/nodes/partials.rs find_matching_partial,
over an existence oracle fs standing for Path::exists: per directory,
form workspace_root.join(dir); if it exists, form its join with src and
return that on existence; otherwise continue with the next directory. -/
def find_matching_partialAux (fs : Path → Bool) (root : Path) (src : String) :
    List Path → Option Path
  | [] => none
  | dir :: rest =>
    if fs (Path.join root dir) then
      if fs (Path.join (Path.join root dir) (relPath src)) then
        some (Path.join (Path.join root dir) (relPath src))
      else find_matching_partialAux fs root src rest
    else find_matching_partialAux fs root src rest

/-- src/nodes/partials.rs Config::find_matching_partial: guard on an
empty directory list or an unset workspace root, extract the src
attribute, then run the directory loop.  The returned location is the
path passed to Url::from_file_path. -/
def find_matching_partial (cv : ConfigValues) (fs : Path → Bool)
    (node : MdxJsxFlowElement) : Option Path :=
  if cv.partials_dirs.isEmpty || cv.workspace_root.isNone then none
  else
    match getSrc node.attributes, cv.workspace_root with
    | some src, some root => find_matching_partialAux fs root src cv.partials_dirs
    | _, _ => none

/-- The sequence of paths on which the directory loop calls the
existence oracle, in call order (instrumentation of the same loop). -/
def fsProbesAux (fs : Path → Bool) (root : Path) (src : String) :
    List Path → List Path
  | [] => []
  | dir :: rest =>
    Path.join root dir ::
      (if fs (Path.join root dir) then
        Path.join (Path.join root dir) (relPath src) ::
          (if fs (Path.join (Path.join root dir) (relPath src)) then []
           else fsProbesAux fs root src rest)
      else fsProbesAux fs root src rest)

/-- The sequence of existence checks performed by a whole
find_matching_partial call (empty before the loop is reached). -/
def fsProbes (cv : ConfigValues) (fs : Path → Bool)
    (node : MdxJsxFlowElement) : List Path :=
  if cv.partials_dirs.isEmpty || cv.workspace_root.isNone then []
  else
    match getSrc node.attributes, cv.workspace_root with
    | some src, some root => fsProbesAux fs root src cv.partials_dirs
    | _, _ => []

/-- The dir_path values the loop actually visits (one per iteration,
stopping after the iteration that returns a location). -/
def visitedDirs (fs : Path → Bool) (root : Path) (src : String) :
    List Path → List Path
  | [] => []
  | dir :: rest =>
    Path.join root dir ::
      (if fs (Path.join root dir) &&
          fs (Path.join (Path.join root dir) (relPath src)) then []
       else visitedDirs fs root src rest)

/-- src/config.rs: the well-known config file name. -/
def CONFIG_FILE : String := ".supermdx.toml"

/-- The outcome of the config-file read-and-parse sequence in
src/config.rs ConfigValues::update, abstracting the filesystem and the
TOML deserializer: the file is absent (config_path.exists() is false),
unreadable (read_to_string fails), malformed (toml parsing fails), or
parsed into a directory list. -/
inductive ReadResult where
  | absent
  | unreadable
  | malformed
  | parsed (dirs : List Path)

/-- src/config.rs ConfigValues::update.  rootUri models
params.root_uri (outer Option) and Url::to_file_path (inner Option);
readConfig models the exists/read/parse sequence on the config path.
Mirrors the source order: the root URI failures return before any field
is written; workspace_root is assigned before the config file is
consulted; partials_dirs is only assigned on a full success, each entry
joined onto the workspace root. -/
def ConfigValues.update (cv : ConfigValues) (rootUri : Option (Option Path))
    (readConfig : Path → ReadResult) : ConfigValues × Except String Unit :=
  match rootUri with
  | none => (cv, Except.error ("No root URI provided"))
  | some none => (cv, Except.error ("Invalid root URI"))
  | some (some root) =>
    let cv1 := ConfigValues.mk cv.partials_dirs (some root)
    match readConfig (Path.join root (relPath CONFIG_FILE)) with
    | ReadResult.absent => (cv1, Except.error ("Config file not found"))
    | ReadResult.unreadable => (cv1, Except.error ("Failed to read config file"))
    | ReadResult.malformed => (cv1, Except.error ("Failed to parse config file"))
    | ReadResult.parsed dirs =>
      (ConfigValues.mk (dirs.map (fun d => Path.join root d)) (some root),
        Except.ok ())

/-- The Document Store: the ast_map of src/main.rs, keyed by the uri
string. -/
def DocStore : Type := String → Option Node

/-- DashMap::insert - replace the entry for one key. -/
def DocStore.insert (store : DocStore) (uri : String) (ast : Node) : DocStore :=
  fun u => if u = uri then some ast else store u

/-- src/main.rs Backend::on_change: parse the text (the external
markdown collaborator, passed as an oracle) and insert the tree only on
success; the return type shows that no failure is surfaced. -/
def on_change (store : DocStore) (parse : String → Except String Node)
    (uri text : String) : DocStore :=
  match parse text with
  | Except.ok ast => DocStore.insert store uri ast
  | Except.error _ => store

/-- The observable outcome of a request handler: a normal reply, or a
panic (what Option::unwrap does on None). -/
inductive HResult (α : Type) where
  | ok (val : α)
  | panic (msg : String)
deriving DecidableEq

/-- The panic message of Option::unwrap on None. -/
def UNWRAP_MSG : String := "called Option::unwrap on a None value"

/-- src/main.rs Backend::goto_definition: look the uri up in the
ast_map and unwrap, walk the ancestor chain, take the deepest partial
match, and run the resolver when it is an MDX JSX flow element. -/
def goto_definition (store : DocStore) (cv : ConfigValues) (fs : Path → Bool)
    (uri : String) (pos : Position) : HResult (Option Path) :=
  match store uri with
  | none => HResult.panic UNWRAP_MSG
  | some ast =>
    match
      find_deepest_match (get_ancestor_chain ast pos) (fun n => is_partial n)
    with
    | some n =>
      match Node.kind n with
      | NodeKind.mdxJsxFlowElement name attrs =>
          HResult.ok ( find_matching_partial cv fs (MdxJsxFlowElement.mk name attrs))
      | _ => HResult.ok none
    | none => HResult.ok none

theorem stepChild_contains {p : Position} {n c : Node}
    (h : stepChild p n = some c) : contains_position c p = true := by
  unfold stepChild at h
  cases hch : Node.children n with
  | none => rw [hch] at h; simp at h
  | some cs =>
    rw [hch] at h
    simp only [Option.bind] at h
    simpa using List.find?_some h

theorem reverse_find_eq_filter_getLast {α : Type} (p : α → Bool) :
    ∀ l : List α, l.reverse.find? p = (l.filter p).getLast? := by
  intro l
  induction l with
  | nil => rfl
  | cons a l ih =>
    rw [List.reverse_cons, List.find?_append, ih]
    cases hf : l.filter p with
    | nil =>
      cases hp : p a <;>
        simp [List.filter_cons, hp, hf, List.find?]
    | cons y ys =>
      rcases hgl : (y :: ys).getLast? with _ | z
      · simp [List.getLast?_eq_none_iff] at hgl
      · cases hp : p a <;>
          simp [List.filter_cons, hp, hf, hgl]

/-- C2: for every node and zero-based cursor position, contains_position
is true iff the node has a span and, after adding 1 to the position's
line and character, the line lies in the span's line range and the
column in its column range, both inclusive and independent; a node
without a span contains no position. -/
theorem contains_position_spec (n : Node) (p : Position) :
    (contains_position n p = true ↔
      ∃ s, Node.position n = some s ∧
        s.startLine ≤ p.line + 1 ∧ p.line + 1 ≤ s.endLine ∧
        s.startColumn ≤ p.character + 1 ∧ p.character + 1 ≤ s.endColumn) ∧
    (Node.position n = none → contains_position n p = false) := by
  constructor
  · cases hs : Node.position n with
    | none => simp [contains_position, hs]
    | some s =>
      simp [contains_position, hs, Bool.and_eq_true, decide_eq_true_eq,
        ge_iff_le, and_assoc]
  · intro hs
    simp [contains_position, hs]

/-- Witness for C2 at a concrete node without a span. -/
theorem contains_position_spec_witness :
    Node.position (Node.mk NodeKind.text none none) = none ∧
    contains_position (Node.mk NodeKind.text none none) (Position.mk 5 7) = false :=
  ⟨rfl, (contains_position_spec (Node.mk NodeKind.text none none)
    (Position.mk 5 7)).2 rfl⟩

/-- C8: is_partial is true iff the node is an MDX JSX flow element whose
tag name is the reserved marker string; the attributes, span and
children never affect the result. -/
theorem is_partial_spec (n : Node) :
    ( is_partial n = true ↔
      ∃ attrs, Node.kind n = NodeKind.mdxJsxFlowElement (some PARTIAL) attrs) ∧
    (∀ name attrs attrs' pos pos' ch ch',
      is_partial (Node.mk (NodeKind.mdxJsxFlowElement name attrs) pos ch) =
        is_partial (Node.mk (NodeKind.mdxJsxFlowElement name attrs') pos' ch')) ∧
    PARTIAL = ("$Partial") := by
  refine ⟨?_, ?_, rfl⟩
  · cases hk : Node.kind n with
    | mdxJsxFlowElement name attrs =>
      cases name with
      | none => simp [ is_partial, hk]
      | some s =>
        by_cases hsp : s = PARTIAL <;>
          simp [ is_partial, hk, hsp]
    | root => simp [ is_partial, hk]
    | heading => simp [ is_partial, hk]
    | paragraph => simp [ is_partial, hk]
    | list => simp [ is_partial, hk]
    | listItem => simp [ is_partial, hk]
    | text => simp [ is_partial, hk]
    | other => simp [ is_partial, hk]
  · intro name attrs attrs' pos pos' ch ch'
    cases name <;> simp [ is_partial, Node.kind]

/-- Witness for C8 at a concrete partial-reference node. -/
theorem is_partial_spec_witness :
    is_partial (Node.mk (NodeKind.mdxJsxFlowElement (some PARTIAL) []) none none) =
      true :=
  (is_partial_spec (Node.mk (NodeKind.mdxJsxFlowElement (some PARTIAL) []) none
    none)).1.mpr ⟨[], rfl⟩

/-- C4: find_deepest_match returns the last (deepest) element of the
chain satisfying the predicate, and returns none exactly when no
element satisfies it (in particular on the empty chain). -/
theorem find_deepest_match_spec (chain : List Node) (test : Node → Bool) :
    find_deepest_match chain test = (chain.filter test).getLast? ∧
    ( find_deepest_match chain test = none ↔ ∀ x ∈ chain, test x = false) := by
  constructor
  · exact reverse_find_eq_filter_getLast test chain
  · unfold find_deepest_match
    rw [List.find?_eq_none]
    constructor
    · intro h x hx
      simpa using h x (by simpa using hx)
    · intro h x hx
      simp [h x (by simpa using hx)]

/-- Witness for C4 at a concrete two-element chain with two satisfying
elements: the deepest one is returned. -/
theorem find_deepest_match_spec_witness :
    find_deepest_match
        [Node.mk (NodeKind.mdxJsxFlowElement (some PARTIAL) []) none none,
         Node.mk (NodeKind.mdxJsxFlowElement (some PARTIAL) [AttributeContent.expression PARTIAL]) none none]
        (fun n => is_partial n) =
      some (Node.mk (NodeKind.mdxJsxFlowElement (some PARTIAL) [AttributeContent.expression PARTIAL]) none none) := by
  rw [( find_deepest_match_spec
    [Node.mk (NodeKind.mdxJsxFlowElement (some PARTIAL) []) none none,
     Node.mk (NodeKind.mdxJsxFlowElement (some PARTIAL) [AttributeContent.expression PARTIAL]) none none]
    (fun n => is_partial n)).1]
  rfl

theorem srcOfAttr_eq_none (a : AttributeContent) :
    srcOfAttr a = none ↔
      ∀ s, a ≠ AttributeContent.property SRC (some (AttributeValue.literal s)) := by
  cases a with
  | expression v => simp [srcOfAttr]
  | property name value =>
    by_cases hname : name = SRC
    · subst hname
      cases value with
      | none => simp [srcOfAttr]
      | some v =>
        cases v with
        | literal s =>
          simp only [srcOfAttr, if_pos rfl, Option.some_bind]
          constructor
          · intro h; exact absurd h (by simp)
          · intro h; exact absurd rfl (h s)
        | expression e => simp [srcOfAttr]
    · simp [srcOfAttr, hname, Ne.symm hname]

/-- C5: find_matching_partial returns none with no filesystem probe at
all when the directory list is empty or the workspace root unset, and
returns none when the node has no src attribute with a plain string
literal value (getSrc characterized against the attribute list). -/
theorem find_matching_partial_guards (cv : ConfigValues) (fs : Path → Bool)
    (node : MdxJsxFlowElement) :
    ((cv.partials_dirs = [] ∨ cv.workspace_root = none) →
      find_matching_partial cv fs node = none ∧ fsProbes cv fs node = []) ∧
    (getSrc node.attributes = none → find_matching_partial cv fs node = none) ∧
    (getSrc node.attributes = none ↔
      ∀ a ∈ node.attributes, ∀ s,
        a ≠ AttributeContent.property SRC (some (AttributeValue.literal s))) := by
  refine ⟨?_, ?_, ?_⟩
  · intro h
    cases h with
    | inl h => simp [ find_matching_partial, fsProbes, h]
    | inr h => simp [ find_matching_partial, fsProbes, h]
  · intro hsrc
    unfold find_matching_partial
    by_cases hg : cv.partials_dirs.isEmpty || cv.workspace_root.isNone
    · simp [hg]
    · cases hr : cv.workspace_root <;> simp [hg, hsrc, hr]
  · unfold getSrc
    rw [List.findSome?_eq_none_iff]
    constructor
    · intro h a ha; exact (srcOfAttr_eq_none a).mp (h a ha)
    · intro h a ha; exact (srcOfAttr_eq_none a).mpr (h a ha)

/-- Witness for C5 at a concrete config with an empty directory list. -/
theorem find_matching_partial_guards_witness :
    find_matching_partial (ConfigValues.mk [] (some (Path.mk true ["ws"])))
        (fun _ => true) (MdxJsxFlowElement.mk (some PARTIAL) []) = none ∧
    fsProbes (ConfigValues.mk [] (some (Path.mk true ["ws"])))
        (fun _ => true) (MdxJsxFlowElement.mk (some PARTIAL) []) = [] :=
  ( find_matching_partial_guards (ConfigValues.mk [] (some (Path.mk true ["ws"])))
    (fun _ => true) (MdxJsxFlowElement.mk (some PARTIAL) [])).1 (Or.inl rfl)

/-- C7: a parse failure leaves the Document Store exactly as it was;
nothing is inserted or replaced, and on_change surfaces no error. -/
theorem on_change_parse_failure (store : DocStore)
    (parse : String → Except String Node) (uri text msg : String)
    (hp : parse text = Except.error msg) :
    on_change store parse uri text = store := by
  unfold on_change
  rw [hp]

/-- Witness for C7 at a concrete store and an always-failing parser. -/
theorem on_change_parse_failure_witness :
    on_change (fun _ => none) (fun _ => Except.error ("parse error"))
        ("file:///a.mdx") ("<$Partial") = (fun _ => none) :=
  on_change_parse_failure (fun _ => none) (fun _ => Except.error ("parse error"))
    ("file:///a.mdx") ("<$Partial") ("parse error") rfl

/-- C9: with a valid root URI, whenever the config file is absent,
unreadable or malformed, update returns an error yet has already set
workspace_root to the new root, while partials_dirs keeps its previous
value. -/
theorem update_failure_keeps_dirs (cv : ConfigValues) (root : Path)
    (readConfig : Path → ReadResult)
    (hfail : ∀ dirs,
      readConfig (Path.join root (relPath CONFIG_FILE)) ≠ ReadResult.parsed dirs) :
    (∃ msg, (ConfigValues.update cv (some (some root)) readConfig).2 =
      Except.error msg) ∧
    (ConfigValues.update cv (some (some root)) readConfig).1.workspace_root =
      some root ∧
    (ConfigValues.update cv (some (some root)) readConfig).1.partials_dirs =
      cv.partials_dirs := by
  unfold ConfigValues.update
  cases hr : readConfig (Path.join root (relPath CONFIG_FILE)) with
  | absent => simp [hr]
  | unreadable => simp [hr]
  | malformed => simp [hr]
  | parsed dirs => exact absurd hr (hfail dirs)

/-- Witness for C9 at a concrete prior config and an absent config
file: the root is updated, the directory list is kept. -/
theorem update_failure_keeps_dirs_witness :
    (∃ msg, (ConfigValues.update
        (ConfigValues.mk [Path.mk true ["old"]] none)
        (some (some (Path.mk true ["ws"])))
        (fun _ => ReadResult.absent)).2 = Except.error msg) ∧
    (ConfigValues.update (ConfigValues.mk [Path.mk true ["old"]] none)
        (some (some (Path.mk true ["ws"])))
        (fun _ => ReadResult.absent)).1.workspace_root =
      some (Path.mk true ["ws"]) ∧
    (ConfigValues.update (ConfigValues.mk [Path.mk true ["old"]] none)
        (some (some (Path.mk true ["ws"])))
        (fun _ => ReadResult.absent)).1.partials_dirs =
      [Path.mk true ["old"]] :=
  update_failure_keeps_dirs (ConfigValues.mk [Path.mk true ["old"]] none)
    (Path.mk true ["ws"]) (fun _ => ReadResult.absent) (fun _ h => by cases h)

/-- C1 (code bug): a definition request for a document identifier with
no stored tree does not produce a normal empty result; the unwrap on
the ast_map lookup panics.  Evaluation at the failing input. -/
theorem goto_definition_unknown_doc :
    goto_definition (fun _ => none) (ConfigValues.mk [] none) (fun _ => false)
        ("file:///missing.mdx") (Position.mk 0 0) =
      HResult.panic UNWRAP_MSG := rfl

theorem nodeChain_eq_of_step_none {p : Position} {n : Node}
    (h : stepChild p n = none) : nodeChain p n = [n] := by
  rw [nodeChain_unfold, h]

theorem nodeChain_eq_of_step_some {p : Position} {n c : Node}
    (h : stepChild p n = some c) : nodeChain p n = n :: nodeChain p c := by
  rw [nodeChain_unfold, h]

theorem nodeChain_props (p : Position) :
    ∀ k, ∀ n : Node, sizeOf n ≤ k → contains_position n p = true →
      (nodeChain p n).head? = some n ∧
      List.Chain' (fun a b => stepChild p a = some b) (nodeChain p n) ∧
      (∀ l, (nodeChain p n).getLast? = some l → stepChild p l = none) ∧
      (∀ x ∈ nodeChain p n, contains_position x p = true) := by
  intro k
  induction k with
  | zero =>
    intro n hn _
    exact absurd hn (by cases n with
      | mk a b c => simp [Node.mk.sizeOf_spec])
  | succ k ih =>
    intro n hsize hcp
    cases hstep : stepChild p n with
    | none =>
      rw [nodeChain_eq_of_step_none hstep]
      refine ⟨rfl, List.chain'_singleton n, ?_, ?_⟩
      · intro l hl
        simp only [List.getLast?_singleton, Option.some.injEq] at hl
        exact hl ▸ hstep
      · intro x hx
        simp only [List.mem_singleton] at hx
        rw [hx]
        exact hcp
    | some c =>
      have hlt := stepChild_sizeOf_lt hstep
      have hc := stepChild_contains hstep
      obtain ⟨ih1, ih2, ih3, ih4⟩ := ih c (by omega) hc
      rw [nodeChain_eq_of_step_some hstep]
      rcases htail : nodeChain p c with _ | ⟨c0, tail⟩
      · rw [htail] at ih1; simp at ih1
      · have hc0 : c0 = c := by
          rw [htail] at ih1; simpa using ih1
        subst hc0
        refine ⟨rfl, ?_, ?_, ?_⟩
        · rw [List.chain'_cons]
          exact ⟨hstep, htail ▸ ih2⟩
        · intro l hl
          rw [List.getLast?_cons_cons] at hl
          exact ih3 l (by rw [htail]; exact hl)
        · intro x hx
          rcases List.mem_cons.mp hx with hx | hx
          · rw [hx]; exact hcp
          · exact ih4 x (by rw [htail]; exact hx)

/-- C3: get_ancestor_chain is empty iff the root does not contain the
position; otherwise it starts at the root, each next element is the
first child of the previous one containing the position, it ends at the
first node none of whose children contain the position, and every
element contains the position. -/
theorem get_ancestor_chain_spec (ast : Node) (p : Position) :
    (get_ancestor_chain ast p = [] ↔ contains_position ast p = false) ∧
    (contains_position ast p = true →
      (get_ancestor_chain ast p).head? = some ast ∧
      List.Chain' (fun a b => stepChild p a = some b) (get_ancestor_chain ast p) ∧
      (∀ l, (get_ancestor_chain ast p).getLast? = some l → stepChild p l = none) ∧
      (∀ x ∈ get_ancestor_chain ast p, contains_position x p = true)) := by
  constructor
  · unfold get_ancestor_chain
    cases hc : contains_position ast p
    · simp
    · rw [if_pos rfl, nodeChain_unfold]
      simp
  · intro hc
    unfold get_ancestor_chain
    rw [if_pos hc]
    exact nodeChain_props p (sizeOf ast) ast le_rfl hc

/-- A concrete two-level tree for the chain witness. -/
def sampleLeaf : Node :=
  Node.mk NodeKind.text (some (Span.mk 1 1 1 5)) none

/-- A concrete root whose only child is sampleLeaf. -/
def sampleRoot : Node :=
  Node.mk NodeKind.root (some (Span.mk 1 1 2 10)) (some [sampleLeaf])

/-- Witness for C3 at a concrete tree and position contained in it. -/
theorem get_ancestor_chain_spec_witness :
    contains_position sampleRoot (Position.mk 0 0) = true ∧
    (get_ancestor_chain sampleRoot (Position.mk 0 0)).head? = some sampleRoot :=
  ⟨rfl, ((get_ancestor_chain_spec sampleRoot (Position.mk 0 0)).2 rfl).1⟩

theorem find_matching_partialAux_eq (fs : Path → Bool) (root : Path)
    (src : String) :
    ∀ dirs : List Path,
      (∀ d ∈ dirs, fs (Path.join (Path.join root d) (relPath src)) = true →
        fs (Path.join root d) = true) →
      find_matching_partialAux fs root src dirs =
        ((dirs.find? (fun d =>
            fs (Path.join (Path.join root d) (relPath src)))).map
          (fun d => Path.join (Path.join root d) (relPath src))) := by
  intro dirs
  induction dirs with
  | nil => intro _; rfl
  | cons d rest ih =>
    intro hco
    have hrest := fun d' hd' => hco d' (List.mem_cons_of_mem _ hd')
    unfold find_matching_partialAux
    cases hdir : fs (Path.join root d) with
    | true =>
      cases hcand : fs (Path.join (Path.join root d) (relPath src)) with
      | true => simp [List.find?_cons, hcand]
      | false => simp [List.find?_cons, hcand, ih hrest]
    | false =>
      have hcf : fs (Path.join (Path.join root d) (relPath src)) = false := by
        cases hcand : fs (Path.join (Path.join root d) (relPath src)) with
        | false => rfl
        | true =>
          exact absurd (hco d (List.mem_cons_self d rest) hcand) (by simp [hdir])
      simp [List.find?_cons, hcf, ih hrest]

/-- C6: with a set workspace root, a non-empty directory list, and a
string src attribute, find_matching_partial returns the candidate
workspace_root/directory/src of the first directory whose candidate
exists on a filesystem where an existing file implies an existing
parent directory, and returns none iff no directory yields an existing
file. -/
theorem find_matching_partial_order (cv : ConfigValues) (fs : Path → Bool)
    (node : MdxJsxFlowElement) (root : Path) (src : String)
    (hroot : cv.workspace_root = some root)
    (hne : cv.partials_dirs ≠ [])
    (hsrc : getSrc node.attributes = some src)
    (hfs : ∀ d ∈ cv.partials_dirs,
      fs (Path.join (Path.join root d) (relPath src)) = true →
        fs (Path.join root d) = true) :
    find_matching_partial cv fs node =
      ((cv.partials_dirs.find? (fun d =>
          fs (Path.join (Path.join root d) (relPath src)))).map
        (fun d => Path.join (Path.join root d) (relPath src))) ∧
    ( find_matching_partial cv fs node = none ↔
      ∀ d ∈ cv.partials_dirs,
        fs (Path.join (Path.join root d) (relPath src)) = false) := by
  have hmain : find_matching_partial cv fs node =
      ((cv.partials_dirs.find? (fun d =>
          fs (Path.join (Path.join root d) (relPath src)))).map
        (fun d => Path.join (Path.join root d) (relPath src))) := by
    unfold find_matching_partial
    have hg : (cv.partials_dirs.isEmpty || cv.workspace_root.isNone) = false := by
      simp [List.isEmpty_iff, hne, hroot]
    rw [hg]
    simp only [Bool.false_eq_true, if_false, hsrc, hroot]
    exact find_matching_partialAux_eq fs root src cv.partials_dirs hfs
  refine ⟨hmain, ?_⟩
  rw [hmain]
  rw [Option.map_eq_none']
  rw [List.find?_eq_none]
  constructor
  · intro h d hd
    simpa using h d hd
  · intro h d hd
    simp [h d hd]

/-- Concrete workspace for the C6 witness: directories a and b under
the root ws, both containing the file x.mdx. -/
def fsW : Path → Bool := fun q =>
  decide (q ∈ [Path.mk true ["ws", "a"], Path.mk true ["ws", "b"],
    Path.mk true ["ws", "a", "x.mdx"], Path.mk true ["ws", "b", "x.mdx"]])

/-- Concrete config for the C6 witness. -/
def cfgW : ConfigValues :=
  ConfigValues.mk [Path.mk false ["a"], Path.mk false ["b"]]
    (some (Path.mk true ["ws"]))

/-- Concrete partial-reference element for the C6 witness. -/
def nodeW : MdxJsxFlowElement :=
  MdxJsxFlowElement.mk (some PARTIAL)
    [AttributeContent.property SRC (some (AttributeValue.literal ("x.mdx")))]

/-- Witness for C6: both directories contain x.mdx and the resolver
returns the candidate in the first one. -/
theorem find_matching_partial_order_witness :
    find_matching_partial cfgW fsW nodeW =
      some (Path.mk true ["ws", "a", "x.mdx"]) := by
  rw [( find_matching_partial_order cfgW fsW nodeW (Path.mk true ["ws"])
    ("x.mdx") rfl (by decide) rfl (by decide)).1]
  rfl

theorem visitedDirs_covers (fs : Path → Bool) (root : Path) (src : String) :
    ∀ dirs : List Path, (∀ d ∈ dirs, Path.join root d = d) →
      ∃ t, visitedDirs fs root src dirs ++ t = dirs ∧
        (find_matching_partialAux fs root src dirs = none → t = []) := by
  intro dirs
  induction dirs with
  | nil => intro _; exact ⟨[], rfl, fun _ => rfl⟩
  | cons d rest ih =>
    intro hj
    have hjd : Path.join root d = d := hj d (List.mem_cons_self d rest)
    have hjrest := fun d' hd' => hj d' (List.mem_cons_of_mem _ hd')
    obtain ⟨t, ht, htnone⟩ := ih hjrest
    unfold visitedDirs find_matching_partialAux
    cases hdir : fs (Path.join root d) with
    | true =>
      cases hcand : fs (Path.join (Path.join root d) (relPath src)) with
      | true =>
        refine ⟨rest, ?_, ?_⟩
        · simp [hdir, hcand, hjd]
        · intro hnone; simp [hdir, hcand] at hnone
      | false =>
        refine ⟨t, ?_, ?_⟩
        · simp [hdir, hcand, hjd, ht]
        · intro hnone
          rw [if_pos rfl] at hnone
          rw [if_neg (by simp [hcand])] at hnone
          exact htnone hnone
    | false =>
      refine ⟨t, ?_, ?_⟩
      · simp [hdir, hjd, ht]
      · intro hnone
        rw [if_neg (by simp [hdir])] at hnone
        exact htnone hnone

/-- C10: after a successful update with an absolute workspace root,
every stored search directory is the root joined with a configured
directory and is absolute, joining any base (in particular the root
again, as the resolver does) onto it leaves it unchanged, and a
resolver run over the stored list visits each stored directory verbatim
at most once, exactly once when it finds nothing. -/
theorem update_success_abs (cv : ConfigValues) (root : Path)
    (readConfig : Path → ReadResult) (hroot : root.absolute = true)
    (hok : (ConfigValues.update cv (some (some root)) readConfig).2 =
      Except.ok ()) :
    ∃ dirs, readConfig (Path.join root (relPath CONFIG_FILE)) =
        ReadResult.parsed dirs ∧
      (ConfigValues.update cv (some (some root)) readConfig).1.partials_dirs =
        dirs.map (fun d => Path.join root d) ∧
      (∀ d ∈ (ConfigValues.update cv (some (some root))
          readConfig).1.partials_dirs,
        d.absolute = true ∧ ∀ base, Path.join base d = d) ∧
      (∀ fs src, ∃ t,
        visitedDirs fs root src ((ConfigValues.update cv (some (some root))
            readConfig).1.partials_dirs) ++ t =
          (ConfigValues.update cv (some (some root)) readConfig).1.partials_dirs ∧
        (find_matching_partialAux fs root src
            ((ConfigValues.update cv (some (some root))
              readConfig).1.partials_dirs) = none → t = [])) := by
  cases hr : readConfig (Path.join root (relPath CONFIG_FILE)) with
  | absent => rw [ConfigValues.update, hr] at hok; cases hok
  | unreadable => rw [ConfigValues.update, hr] at hok; cases hok
  | malformed => rw [ConfigValues.update, hr] at hok; cases hok
  | parsed dirs =>
    have hd : (ConfigValues.update cv (some (some root))
        readConfig).1.partials_dirs = dirs.map (fun d => Path.join root d) := by
      rw [ConfigValues.update, hr]
    have habs : ∀ d ∈ (ConfigValues.update cv (some (some root))
        readConfig).1.partials_dirs, d.absolute = true ∧
        ∀ base, Path.join base d = d := by
      rw [hd]
      intro d hdm
      obtain ⟨d0, _, hmap⟩ := List.mem_map.mp hdm
      have hdabs : d.absolute = true := by
        rw [← hmap]
        unfold Path.join
        cases h0 : d0.absolute with
        | true => simp [h0]
        | false => simp [h0, hroot]
      exact ⟨hdabs, fun base => by unfold Path.join; rw [hdabs]; simp⟩
    refine ⟨dirs, rfl, hd, habs, ?_⟩
    intro fs src
    exact visitedDirs_covers fs root src _
      (fun d hdm => (habs d hdm).2 root)

/-- Witness for C10 at a concrete root and a parsed config with one
relative directory. -/
theorem update_success_abs_witness :
    (Path.mk true ["ws"]).absolute = true ∧
    (ConfigValues.update (ConfigValues.mk [] none)
        (some (some (Path.mk true ["ws"])))
        (fun _ => ReadResult.parsed [Path.mk false ["partials"]])).2 =
      Except.ok () ∧
    (∃ dirs, (fun _ => ReadResult.parsed [Path.mk false ["partials"]] :
          Path → ReadResult)
          (Path.join (Path.mk true ["ws"]) (relPath CONFIG_FILE)) =
        ReadResult.parsed dirs ∧
      (ConfigValues.update (ConfigValues.mk [] none)
          (some (some (Path.mk true ["ws"])))
          (fun _ => ReadResult.parsed [Path.mk false ["partials"]])).1.partials_dirs =
        dirs.map (fun d => Path.join (Path.mk true ["ws"]) d) ∧
      (∀ d ∈ (ConfigValues.update (ConfigValues.mk [] none)
          (some (some (Path.mk true ["ws"])))
          (fun _ => ReadResult.parsed [Path.mk false ["partials"]])).1.partials_dirs,
        d.absolute = true ∧ ∀ base, Path.join base d = d) ∧
      (∀ fs src, ∃ t,
        visitedDirs fs (Path.mk true ["ws"]) src
            ((ConfigValues.update (ConfigValues.mk [] none)
              (some (some (Path.mk true ["ws"])))
              (fun _ => ReadResult.parsed [Path.mk false ["partials"]])).1.partials_dirs) ++
            t =
          (ConfigValues.update (ConfigValues.mk [] none)
            (some (some (Path.mk true ["ws"])))
            (fun _ => ReadResult.parsed [Path.mk false ["partials"]])).1.partials_dirs ∧
        (find_matching_partialAux fs (Path.mk true ["ws"]) src
            ((ConfigValues.update (ConfigValues.mk [] none)
              (some (some (Path.mk true ["ws"])))
              (fun _ => ReadResult.parsed [Path.mk false ["partials"]])).1.partials_dirs) =
            none → t = []))) :=
  ⟨rfl, rfl, update_success_abs (ConfigValues.mk [] none) (Path.mk true ["ws"])
    (fun _ => ReadResult.parsed [Path.mk false ["partials"]]) rfl rfl⟩

end SuperMdx
